import Mathlib

/-!
# Expo-imagesync record store: shallow embedding and verification

This file embeds the asset record store of the repository
(`src/db/db.ts`, with the extended variants in `src/db/users.ts`) as pure
Lean functions over an explicit store state, and settles the claims about
its specification.

Modelling conventions:
* the SQLite `assets` table is a `List LocalAssetRecord`; rows appear in
  insertion order, and since `id` is `INTEGER PRIMARY KEY AUTOINCREMENT`
  every reachable store has strictly increasing ids — theorems about
  arbitrary stores take this as the hypothesis `sortedById`;
* every `execSql` call in the source runs in its own SQLite transaction,
  so each one is modelled as a single atomic step on the store;
* `ORDER BY id ASC` is modelled by an insertion sort on ids, SQL `NULL`
  by `Option`, and SQL `LIKE` patterns by the corresponding string tests
  (`_` matches exactly one character, `%` any suffix, and matching is
  ASCII-case-insensitive as in SQLite's default `LIKE`);
* `REAL` geolocation columns are opaque metadata never interpreted by
  the store, modelled as `Option Int`.
-/

/-- Mirrors `AssetStatus` in `src/types/index.ts`:
`"pending" | "uploading" | "uploaded" | "failed"`. -/
inductive AssetStatus where
  | pending
  | uploading
  | uploaded
  | failed
deriving DecidableEq, Repr

/-- Mirrors `LocalAssetRecord` in `src/types/index.ts` / one row of the
`assets` table as produced by `mapRow` in `src/db/db.ts`. -/
structure LocalAssetRecord where
  id : Nat
  filename : String
  mimeType : String
  timestampMs : Nat
  status : AssetStatus
  retries : Nat
  latitude : Option Int
  longitude : Option Int
  imageBase64 : String
  uri : Option String
  serverId : Option String
  fileSizeBytes : Option Nat
deriving DecidableEq, Repr

/-- The `assets` table: rows in insertion order. -/
abbrev Store := List LocalAssetRecord

/-- Reachable stores have strictly increasing ids (`id` is
`INTEGER PRIMARY KEY AUTOINCREMENT`, rows are kept in insertion order). -/
def sortedById (s : Store) : Prop :=
  s.Pairwise (fun a b => a.id < b.id)

instance (s : Store) : Decidable (sortedById s) :=
  inferInstanceAs (Decidable (List.Pairwise _ s))

/-- `status IN ('pending', 'failed')` — the eligibility filter used by
`getPendingAssets` and `reservePendingAssets` in `src/db/db.ts`. -/
def isEligible (r : LocalAssetRecord) : Bool :=
  match r.status with
  | .pending => true
  | .failed => true
  | _ => false

/-- `ORDER BY id ASC`. -/
def sortById (s : List LocalAssetRecord) : List LocalAssetRecord :=
  List.insertionSort (fun a b => a.id ≤ b.id) s

/-- First `execSql` step of `reservePendingAssets` (src/db/db.ts):
`SELECT id FROM assets WHERE status IN ('pending','failed') ORDER BY id ASC
LIMIT ?`. One atomic storage step. -/
def reserveSelectStep (s : Store) (limit : Nat) : List Nat :=
  ((sortById (s.filter isEligible)).take limit).map (·.id)

/-- Second `execSql` step of `reservePendingAssets`:
`UPDATE assets SET status = 'uploading' WHERE id IN (...)`.
One atomic storage step, separate from the select. -/
def reserveMarkStep (s : Store) (ids : List Nat) : Store :=
  s.map fun r => if r.id ∈ ids then { r with status := .uploading } else r

/-- Third `execSql` step of `reservePendingAssets`:
`SELECT * FROM assets WHERE id IN (...) ORDER BY id ASC`. -/
def reserveFetchStep (s : Store) (ids : List Nat) : List LocalAssetRecord :=
  sortById (s.filter fun r => decide (r.id ∈ ids))

/-- `reservePendingAssets(limit)` from `src/db/db.ts`, run to completion
with no interleaving: select eligible ids, early-return when none, mark
them `'uploading'`, then fetch the full rows. Returns the new store and
the returned rows. -/
def reservePendingAssets (s : Store) (limit : Nat) : Store × List LocalAssetRecord :=
  let ids := reserveSelectStep s limit
  if ids.isEmpty then (s, [])
  else
    let s' := reserveMarkStep s ids
    (s', reserveFetchStep s' ids)

/-- `markUploaded(id, serverId)`:
`UPDATE assets SET status = 'uploaded', server_id = ? WHERE id = ?`. -/
def markUploaded (s : Store) (id : Nat) (serverId : String) : Store :=
  s.map fun r => if r.id = id then { r with status := .uploaded, serverId := some serverId } else r

/-- `incrementRetry(id)`:
`UPDATE assets SET retries = retries + 1 WHERE id = ?`, then
`SELECT retries FROM assets WHERE id = ?` (the read of `rows.item(0)`
is `none` when no row matches). -/
def incrementRetry (s : Store) (id : Nat) : Store × Option Nat :=
  let s' := s.map fun r => if r.id = id then { r with retries := r.retries + 1 } else r
  (s', (s'.find? fun r => decide (r.id = id)).map (·.retries))

/-- `markFailed(id)`: `UPDATE assets SET status = 'failed' WHERE id = ?`. -/
def markFailed (s : Store) (id : Nat) : Store :=
  s.map fun r => if r.id = id then { r with status := .failed } else r

/-- `setPending(id)`: `UPDATE assets SET status = 'pending' WHERE id = ?`. -/
def setPending (s : Store) (id : Nat) : Store :=
  s.map fun r => if r.id = id then { r with status := .pending } else r

/-- `resetFailedAssets()`:
`UPDATE assets SET status = 'pending', retries = 0 WHERE status = 'failed'`. -/
def resetFailedAssets (s : Store) : Store :=
  s.map fun r => if r.status = .failed then { r with status := .pending, retries := 0 } else r

/-- `resetAsset(id)`:
`UPDATE assets SET status = 'pending', retries = 0 WHERE id = ?`. -/
def resetAsset (s : Store) (id : Nat) : Store :=
  s.map fun r => if r.id = id then { r with status := .pending, retries := 0 } else r

/-- `incrementRetryCapped(id, maxRetries)` from `src/db/db.ts`: read
`current = rows.item(0)?.retries ?? 0`; if `current >= maxRetries` return
`current` without touching the store, else
`UPDATE assets SET retries = current + 1 WHERE id = ?` and return
`current + 1`. -/
def incrementRetryCapped (s : Store) (id : Nat) (maxRetries : Nat) : Store × Nat :=
  let current := ((s.find? fun r => decide (r.id = id)).map (·.retries)).getD 0
  if maxRetries ≤ current then (s, current)
  else
    (s.map fun r => if r.id = id then { r with retries := current + 1 } else r, current + 1)

/-- SQLite's default `LIKE` folds case for ASCII only: `A`–`Z` map to
`a`–`z`, every other character is unchanged. -/
def asciiLower (c : Char) : Char :=
  if 'A' ≤ c && c ≤ 'Z' then Char.ofNat (c.toNat + 32) else c

/-- SQL `server_id LIKE 'local_%' OR server_id LIKE 'server_%'` from the
`initializeSchema` migration. In `LIKE`, `_` matches exactly one
character, `%` matches any suffix, and matching is case-insensitive
for ASCII by default — `'Local_1' LIKE 'local_%'` holds. So
`'local_%'` means: the ASCII-lowercased first five characters are
`"local"` and at least one further character follows. -/
def isInvalidServerId (sid : String) : Bool :=
  let low := sid.data.map asciiLower
  (decide (low.take 5 = "local".data) && decide (6 ≤ sid.length)) ||
    (decide (low.take 6 = "server".data) && decide (7 ≤ sid.length))

/-- The row-level effect of `initializeSchema()` (`src/db/db.ts`): the
`CREATE TABLE IF NOT EXISTS` and `ALTER TABLE ... ADD COLUMN` statements
do not modify existing rows; the only statement touching rows is the
migration `UPDATE assets SET server_id = NULL WHERE server_id LIKE
'local_%' OR server_id LIKE 'server_%'`. There is no statement touching
the `status` column. -/
def initializeSchema (s : Store) : Store :=
  s.map fun r =>
    match r.serverId with
    | some sid => if isInvalidServerId sid then { r with serverId := none } else r
    | none => r

/-- Parameter object of `insertAsset` (`src/db/db.ts`); the TypeScript
`status` union is `"pending" | "uploaded" | "failed"` but nothing narrows
it further, and optional fields default as in the source. -/
structure InsertParams where
  filename : String
  mimeType : String
  timestampMs : Nat
  status : AssetStatus
  retries : Option Nat
  latitude : Option Int
  longitude : Option Int
  imageBase64 : String
  uri : Option String
  fileSizeBytes : Option Nat

/-- SQLite AUTOINCREMENT: next id is strictly above every existing id. -/
def nextId (s : Store) : Nat :=
  (s.map (·.id)).foldr Nat.max 0 + 1

/-- `insertAsset(params)`: `INSERT INTO assets (...) VALUES (...)` — the
column list omits `server_id`, so the new row has `server_id = NULL`;
returns `result.insertId`. -/
def insertAsset (s : Store) (p : InsertParams) : Store × Nat :=
  let newId := nextId s
  (s ++ [{ id := newId, filename := p.filename, mimeType := p.mimeType,
           timestampMs := p.timestampMs, status := p.status,
           retries := p.retries.getD 0, latitude := p.latitude,
           longitude := p.longitude, imageBase64 := p.imageBase64,
           uri := p.uri, serverId := none,
           fileSizeBytes := p.fileSizeBytes }], newId)

/-- One row of the `deleted_assets` audit table (`src/db/users.ts`). -/
structure DeletedAssetRow where
  assetFilename : String
  assetOriginalId : Nat
  imageBase64 : Option String
  mimeType : Option String
  deletedByAdminId : Nat
  deletedByAdminUsername : String
  deletionTimestampMs : Nat

/-- JavaScript truthiness of the optional `deletedByAdminId` number. -/
def truthyNat : Option Nat → Bool
  | none => false
  | some n => decide (n ≠ 0)

/-- JavaScript truthiness of the optional `deletedByAdminUsername`. -/
def truthyStr : Option String → Bool
  | none => false
  | some s => decide (s ≠ "")

/-- `deleteAsset(id, deletedByAdminId?, deletedByAdminUsername?)` from
`src/db/users.ts`: when both admin arguments are truthy and the asset
exists, first append an audit row to `deleted_assets` (with
`Date.now()` passed in as `now`); then
`DELETE FROM assets WHERE id = ?`. Returns the new `assets` table and
the new audit table. -/
def deleteAsset (s : Store) (log : List DeletedAssetRow) (id : Nat)
    (deletedByAdminId : Option Nat) (deletedByAdminUsername : Option String)
    (now : Nat) : Store × List DeletedAssetRow :=
  let log' :=
    if truthyNat deletedByAdminId && truthyStr deletedByAdminUsername then
      match s.find? fun r => decide (r.id = id) with
      | some a =>
          log ++ [{ assetFilename := a.filename, assetOriginalId := id,
                    imageBase64 := some a.imageBase64,
                    mimeType := some a.mimeType,
                    deletedByAdminId := deletedByAdminId.getD 0,
                    deletedByAdminUsername := deletedByAdminUsername.getD "",
                    deletionTimestampMs := now }]
      | none => log
    else log
  (s.filter fun r => decide (r.id ≠ id), log')

/-- The spec's record invariant: `serverId != null ⇔ status == uploaded`. -/
def serverIdInvariant (r : LocalAssetRecord) : Prop :=
  r.serverId ≠ none ↔ r.status = .uploaded

instance (r : LocalAssetRecord) : Decidable (serverIdInvariant r) :=
  inferInstanceAs (Decidable (_ ↔ _))

/-- The invariant holding of every record in the store. -/
def storeInvariant (s : Store) : Prop :=
  ∀ r ∈ s, serverIdInvariant r

instance (s : Store) : Decidable (storeInvariant s) :=
  List.decidableBAll _ s

/-- A concrete record used by counterexamples and witnesses. -/
def mkRecord (id : Nat) (st : AssetStatus) (retries : Nat)
    (serverId : Option String) : LocalAssetRecord :=
  { id := id, filename := "photo.jpg", mimeType := "image/jpeg",
    timestampMs := 1000, status := st, retries := retries,
    latitude := none, longitude := none, imageBase64 := "data",
    uri := none, serverId := serverId, fileSizeBytes := none }

/-! ## Helper lemmas about sortedness and reservation -/

lemma sortedById_nodup {s : Store} (hs : sortedById s) : s.Nodup :=
  hs.imp fun h => by
    intro heq
    exact absurd (heq ▸ h) (lt_irrefl _)

lemma sortedById_filter {s : Store} (p : LocalAssetRecord → Bool)
    (hs : sortedById s) : sortedById (s.filter p) :=
  List.Pairwise.sublist (List.filter_sublist s) hs

lemma sortedById_take {s : Store} (n : Nat) (hs : sortedById s) :
    sortedById (s.take n) :=
  List.Pairwise.sublist (List.take_sublist n s) hs

lemma sortById_eq_of_sorted {s : Store} (hs : sortedById s) : sortById s = s :=
  List.Sorted.insertionSort_eq (hs.imp fun h => le_of_lt h)

lemma sortedById_map_of_id_preserved {s : Store} {f : LocalAssetRecord → LocalAssetRecord}
    (hf : ∀ r, (f r).id = r.id) (hs : sortedById s) : sortedById (s.map f) := by
  rw [sortedById, List.pairwise_map]
  exact hs.imp fun h => by rwa [hf, hf]

lemma eq_of_mem_of_id_eq {s : Store} (hs : sortedById s) {r r' : LocalAssetRecord}
    (hr : r ∈ s) (hr' : r' ∈ s) (h : r.id = r'.id) : r = r' := by
  induction s with
  | nil => cases hr
  | cons a t ih =>
    rcases List.pairwise_cons.mp hs with ⟨ha, ht⟩
    rcases List.mem_cons.mp hr with rfl | hrt
    · rcases List.mem_cons.mp hr' with rfl | hr't
      · rfl
      · exact absurd (h ▸ ha r' hr't) (lt_irrefl _)
    · rcases List.mem_cons.mp hr' with rfl | hr't
      · exact absurd (h ▸ ha r hrt) (lt_irrefl _)
      · exact ih ht hrt hr't

lemma filter_mem_of_sublist {α : Type} [DecidableEq α] {t s : List α}
    (hsub : t.Sublist s) : s.Nodup → s.filter (fun a => decide (a ∈ t)) = t := by
  induction hsub with
  | slnil => intro _; rfl
  | cons a h ih =>
    rename_i l₁ l₂
    intro hnd
    rcases List.pairwise_cons.mp hnd with ⟨ha, hnd'⟩
    have hat : a ∉ l₁ := fun hmem => (ha a (h.subset hmem)) rfl
    rw [List.filter_cons, if_neg (by simpa using hat)]
    exact ih hnd'
  | cons₂ a h ih =>
    rename_i l₁ l₂
    intro hnd
    rcases List.pairwise_cons.mp hnd with ⟨ha, hnd'⟩
    rw [List.filter_cons, if_pos (by simp)]
    have hcongr : ∀ x ∈ l₂,
        (decide (x ∈ a :: l₁)) = (decide (x ∈ l₁)) := by
      intro x hx
      have hxa : x ≠ a := fun hxa => (ha x hx) hxa.symm
      simp [List.mem_cons, hxa]
    rw [List.filter_congr hcongr, ih hnd']

lemma mem_of_id_mem_map {s : Store} (hs : sortedById s) {sel : Store}
    (hsub : sel.Sublist s) {r : LocalAssetRecord} (hr : r ∈ s)
    (hid : r.id ∈ sel.map (·.id)) : r ∈ sel := by
  rcases List.mem_map.mp hid with ⟨r', hr', hid'⟩
  have : r = r' := eq_of_mem_of_id_eq hs hr (hsub.subset hr') hid'.symm
  exact this ▸ hr'

lemma filter_id_mem_eq_sel {s : Store} (hs : sortedById s) {sel : Store}
    (hsub : sel.Sublist s) :
    s.filter (fun r => decide (r.id ∈ sel.map (·.id))) = sel := by
  have hcongr : ∀ r ∈ s,
      (decide (r.id ∈ sel.map (·.id))) = (decide (r ∈ sel)) := by
    intro r hr
    by_cases h : r ∈ sel
    · simp [h, List.mem_map.mpr ⟨r, h, rfl⟩]
    · have : r.id ∉ sel.map (·.id) := fun hid => h (mem_of_id_mem_map hs hsub hr hid)
      simp [h, this]
  rw [List.filter_congr hcongr, filter_mem_of_sublist hsub (sortedById_nodup hs)]

/-- The spec's description of the reservation batch, stated directly:
the first `limit` records of the store whose status is `pending` or
`failed`, in store (ascending-id) order. -/
def eligibleTake (s : Store) (limit : Nat) : Store :=
  (s.filter isEligible).take limit

lemma eligibleTake_sublist (s : Store) (limit : Nat) :
    (eligibleTake s limit).Sublist s :=
  (List.take_sublist _ _).trans (List.filter_sublist s)

lemma reserveSelectStep_eq {s : Store} (hs : sortedById s) (limit : Nat) :
    reserveSelectStep s limit = (eligibleTake s limit).map (·.id) := by
  unfold reserveSelectStep eligibleTake
  rw [sortById_eq_of_sorted (sortedById_filter _ hs)]

lemma markFun_id (ids : List Nat) (r : LocalAssetRecord) :
    ((fun r : LocalAssetRecord =>
        if r.id ∈ ids then { r with status := AssetStatus.uploading } else r) r).id
      = r.id := by
  dsimp only
  split <;> rfl

lemma reserveFetch_mark {s : Store} (hs : sortedById s) (limit : Nat) :
    reserveFetchStep (reserveMarkStep s (reserveSelectStep s limit)) (reserveSelectStep s limit)
      = (eligibleTake s limit).map (fun r => { r with status := AssetStatus.uploading }) := by
  rw [reserveSelectStep_eq hs]
  set ids := (eligibleTake s limit).map (·.id) with hids
  set f : LocalAssetRecord → LocalAssetRecord :=
    fun r => if r.id ∈ ids then { r with status := AssetStatus.uploading } else r with hf
  have hfid : ∀ r, (f r).id = r.id := markFun_id ids
  have hfilter :
      (reserveMarkStep s ids).filter (fun r => decide (r.id ∈ ids))
        = (eligibleTake s limit).map f := by
    unfold reserveMarkStep
    rw [← hf, List.filter_map]
    have hcomp :
        s.filter ((fun r : LocalAssetRecord => decide (r.id ∈ ids)) ∘ f)
          = s.filter (fun r => decide (r.id ∈ ids)) := by
      apply List.filter_congr
      intro r _
      simp only [Function.comp_apply, hfid]
    rw [hcomp, hids, filter_id_mem_eq_sel hs (eligibleTake_sublist s limit)]
  have hsel_sorted : sortedById ((eligibleTake s limit).map f) :=
    sortedById_map_of_id_preserved hfid
      (List.Pairwise.sublist (eligibleTake_sublist s limit) hs)
  unfold reserveFetchStep
  rw [hfilter, sortById_eq_of_sorted hsel_sorted]
  apply List.map_congr_left
  intro r hr
  rw [hf]
  simp only [if_pos (List.mem_map_of_mem (·.id) hr)]

lemma reservePending_store {s : Store} (hs : sortedById s) (limit : Nat) :
    (reservePendingAssets s limit).1
      = s.map (fun r => if r.id ∈ (eligibleTake s limit).map (·.id)
          then { r with status := AssetStatus.uploading } else r) := by
  unfold reservePendingAssets
  rw [reserveSelectStep_eq hs]
  by_cases h : ((eligibleTake s limit).map (·.id)).isEmpty
  · rw [if_pos h]
    rw [List.isEmpty_iff] at h
    rw [h]
    simp
  · rw [if_neg h]
    rfl

lemma reservePending_rows {s : Store} (hs : sortedById s) (limit : Nat) :
    (reservePendingAssets s limit).2
      = (eligibleTake s limit).map (fun r => { r with status := AssetStatus.uploading }) := by
  unfold reservePendingAssets
  by_cases h : (reserveSelectStep s limit).isEmpty
  · rw [if_pos h]
    rw [List.isEmpty_iff, reserveSelectStep_eq hs, List.map_eq_nil_iff] at h
    rw [h]
    rfl
  · rw [if_neg h]
    exact reserveFetch_mark hs limit

/-- **C4.** For every store with the primary-key id discipline and every
limit, `reservePendingAssets` returns exactly the first `limit` records
whose status is `pending` or `failed` in ascending-id order, each
transitioned to `uploading`; the resulting store transitions exactly the
selected ids to `uploading` and leaves every other record unchanged; at
most `limit` records are selected, all selected records were eligible,
and the returned rows are in strictly ascending id order. -/
theorem c4_reservePendingAssets_spec (s : Store) (hs : sortedById s) (limit : Nat) :
    (reservePendingAssets s limit).2
        = (eligibleTake s limit).map (fun r => { r with status := AssetStatus.uploading }) ∧
      (reservePendingAssets s limit).1
        = s.map (fun r => if r.id ∈ (eligibleTake s limit).map (·.id)
            then { r with status := AssetStatus.uploading } else r) ∧
      (eligibleTake s limit).length ≤ limit ∧
      (∀ r ∈ eligibleTake s limit, isEligible r = true) ∧
      ((reservePendingAssets s limit).2.map (·.id)).Pairwise (· < ·) := by
  refine ⟨reservePending_rows hs limit, reservePending_store hs limit, ?_, ?_, ?_⟩
  · exact (List.length_take _ _).le.trans (min_le_left _ _)
  · intro r hr
    exact List.of_mem_filter ((List.take_sublist _ _).subset hr)
  · rw [reservePending_rows hs limit, List.map_map, List.pairwise_map]
    have hsel : sortedById (eligibleTake s limit) :=
      List.Pairwise.sublist (eligibleTake_sublist s limit) hs
    exact hsel.imp fun h => h

/-- **C4 witness.** Concrete evaluation: a store with a pending, an
uploaded and a failed record; limit 2 selects the pending and failed
rows, marks them uploading, and returns them in ascending-id order. -/
theorem c4_reservePendingAssets_spec_witness :
    sortedById [mkRecord 1 .pending 0 none, mkRecord 2 .uploaded 0 (some "s1"),
        mkRecord 3 .failed 1 none] ∧
      (reservePendingAssets [mkRecord 1 .pending 0 none,
          mkRecord 2 .uploaded 0 (some "s1"), mkRecord 3 .failed 1 none] 2).2
        = (eligibleTake [mkRecord 1 .pending 0 none,
            mkRecord 2 .uploaded 0 (some "s1"), mkRecord 3 .failed 1 none] 2).map
            (fun r => { r with status := AssetStatus.uploading }) :=
  ⟨by decide,
    (c4_reservePendingAssets_spec
      [mkRecord 1 .pending 0 none, mkRecord 2 .uploaded 0 (some "s1"),
        mkRecord 3 .failed 1 none] (by decide) 2).1⟩

lemma eligible_of_id_mem {s : Store} (hs : sortedById s) {limit : Nat}
    {r : LocalAssetRecord} (hr : r ∈ s)
    (h : r.id ∈ (eligibleTake s limit).map (·.id)) : isEligible r = true :=
  List.of_mem_filter ((List.take_sublist _ _).subset
    (mem_of_id_mem_map hs (eligibleTake_sublist s limit) hr h))

lemma serverId_none_of_not_uploaded {r : LocalAssetRecord}
    (hinv : serverIdInvariant r) (h : r.status ≠ .uploaded) : r.serverId = none := by
  by_contra hne
  exact h (hinv.mp hne)

/-- A store with a single pending record, over which two invocations of
`reservePendingAssets` race. -/
def c1Store : Store := [mkRecord 1 .pending 0 none]

/-- **C1** (claim refuted at a concrete interleaving). The claim says
the select and the mark of `reservePendingAssets` form a single atomic
read-and-mark storage step, so no record is claimed by two concurrent
invocations. In the source each `execSql` call is its own SQLite
transaction and nothing groups the `SELECT id ...` and the
`UPDATE ... SET status = 'uploading'` together, so a second invocation's
select step can run between the first invocation's select and mark. At
that interleaving over `c1Store` both invocations select id 1 (each
select reads the still-unmarked store), both mark it, and both fetch
steps return the very same record: record 1 is claimed twice. -/
theorem c1_reservation_not_atomic_double_claim :
    reserveSelectStep c1Store 5 = [1] ∧
      (reserveFetchStep
          (reserveMarkStep (reserveMarkStep c1Store (reserveSelectStep c1Store 5))
            (reserveSelectStep c1Store 5))
          (reserveSelectStep c1Store 5)).map (·.id) = [1] := by
  decide

/-- A store holding one record left in `'uploading'` by an abnormal
termination mid-drain. -/
def c3Store : Store := [mkRecord 1 .uploading 2 none]

/-- **C3** (claim refuted at a concrete input). The claim says the
initialization step moves every `'uploading'` record back to
`'pending'`. `initializeSchema` in the source only creates tables, adds
columns and clears invalid server ids — no statement touches the
`status` column, and no `reconcileStaleUploading` exists anywhere in the
repository. On `c3Store` initialization leaves the record in
`'uploading'`, and the record is not eligible for any subsequent
reservation: it is permanently stuck. -/
theorem c3_initialization_leaves_uploading_stuck :
    initializeSchema c3Store = c3Store ∧
      (initializeSchema c3Store).map (·.status) = [AssetStatus.uploading] ∧
      reserveSelectStep (initializeSchema c3Store) 5 = [] := by
  decide

/-- **C5 counterexample.** A record with `status = 'failed'` and
`retries = 3 = maxRetries` is terminal by the claim, yet the very next
reservation step — with no intervening `resetAsset` — transitions it
back to `'uploading'`: the source deliberately includes `'failed'`
records in the reservation select. -/
theorem c5_counterexample_terminal_failed_is_reclaimed :
    3 ≤ (mkRecord 1 .failed 3 none).retries ∧
      (reservePendingAssets [mkRecord 1 .failed 3 none] 5).1.map (·.status)
        = [AssetStatus.uploading] := by
  decide

/-- **C5 (amended).** The store-level reservation does not honour a
retry cap: every record whose status is `'failed'` — including a
terminal one with `retries ≥ maxRetries` — is eligible, and when its id
is selected the reservation transitions it back to `'uploading'` with no
intervening `resetAsset`; conversely only records whose status is
`'pending'` or `'failed'` are ever selected. -/
theorem c5_amended_terminal_failed_is_reserved (s : Store) (hs : sortedById s)
    (limit maxRetries : Nat) (r : LocalAssetRecord) (hr : r ∈ s)
    (hfail : r.status = .failed) (hterm : maxRetries ≤ r.retries)
    (hsel : r.id ∈ reserveSelectStep s limit) :
    { r with status := AssetStatus.uploading } ∈ (reservePendingAssets s limit).1 ∧
      ∀ r' ∈ s, r'.id ∈ reserveSelectStep s limit → isEligible r' = true := by
  constructor
  · rw [reservePending_store hs limit]
    rw [reserveSelectStep_eq hs] at hsel
    refine List.mem_map.mpr ⟨r, hr, ?_⟩
    dsimp only
    rw [if_pos hsel]
  · intro r' hr' hsel'
    rw [reserveSelectStep_eq hs] at hsel'
    exact eligible_of_id_mem hs hr' hsel'

/-- **C5 witness.** The amended theorem applied to a store holding one
terminal failed record (`retries = 3 = maxRetries`). -/
theorem c5_amended_terminal_failed_is_reserved_witness :
    (mkRecord 1 .failed 3 none).status = AssetStatus.failed ∧
      { mkRecord 1 .failed 3 none with status := AssetStatus.uploading }
        ∈ (reservePendingAssets [mkRecord 1 .failed 3 none] 5).1 :=
  ⟨by decide,
    (c5_amended_terminal_failed_is_reserved [mkRecord 1 .failed 3 none] (by decide)
      5 3 (mkRecord 1 .failed 3 none) (by decide) (by decide) (by decide) (by decide)).1⟩

/-- A store satisfying the serverId invariant with one uploaded record. -/
def c2Store : Store := [mkRecord 1 .uploaded 0 (some "srv-1")]

/-- **C2 counterexample.** The invariant `serverId ≠ null ⇔ status =
'uploaded'` holds of `c2Store`, yet `resetAsset` applied to the uploaded
record sets `status = 'pending'` and `retries = 0` without clearing
`server_id`, breaking the equivalence: the operation does not preserve
the invariant on records whose status is `'uploaded'`. -/
theorem c2_counterexample_resetAsset_on_uploaded :
    storeInvariant c2Store ∧ ¬ storeInvariant (resetAsset c2Store 1) := by
  decide

/-- **C6.** For every store and id, `resetAsset(id)` maps the store
pointwise: the record with that id (whatever its current status) gets
`status = 'pending'` and `retries = 0` with all other fields kept, every
other record is unchanged, no record is added or removed, and the reset
record is eligible for the next drain. -/
theorem c6_resetAsset_spec (s : Store) (id : Nat) :
    (resetAsset s id).length = s.length ∧
      (∀ i : Nat, (resetAsset s id)[i]?
        = s[i]?.map (fun r => if r.id = id
            then { r with status := AssetStatus.pending, retries := 0 } else r)) ∧
      ∀ r ∈ s, r.id = id →
        { r with status := AssetStatus.pending, retries := 0 }
          ∈ (resetAsset s id).filter isEligible := by
  refine ⟨by simp [resetAsset], fun i => by simp [resetAsset, List.getElem?_map], ?_⟩
  intro r hr hid
  unfold resetAsset
  apply List.mem_filter.mpr
  constructor
  · refine List.mem_map.mpr ⟨r, hr, ?_⟩
    dsimp only
    rw [if_pos hid]
  · rfl

/-- **C6 witness.** Resetting the failed record with id 1 in a two-record
store yields a pending, zero-retries, eligible record. -/
theorem c6_resetAsset_spec_witness :
    { mkRecord 1 .failed 2 none with status := AssetStatus.pending, retries := 0 }
      ∈ (resetAsset [mkRecord 1 .failed 2 none, mkRecord 2 .pending 0 none] 1).filter
          isEligible :=
  (c6_resetAsset_spec [mkRecord 1 .failed 2 none, mkRecord 2 .pending 0 none] 1).2.2
    (mkRecord 1 .failed 2 none) (by decide) (by decide)

lemma deleteAsset_fst (s : Store) (log : List DeletedAssetRow) (id : Nat)
    (adminId : Option Nat) (adminUsername : Option String) (now : Nat) :
    (deleteAsset s log id adminId adminUsername now).1
      = s.filter (fun r => decide (r.id ≠ id)) := rfl

/-- **C8.** For every store, audit log, id and (optional) admin
attribution, `deleteAsset(id)` removes exactly the records with that id
from the `assets` store — at any status, independent of queue state —
and every other record survives unchanged. -/
theorem c8_deleteAsset_spec (s : Store) (log : List DeletedAssetRow) (id : Nat)
    (adminId : Option Nat) (adminUsername : Option String) (now : Nat) :
    (∀ r ∈ (deleteAsset s log id adminId adminUsername now).1, r ∈ s ∧ r.id ≠ id) ∧
      (∀ r ∈ s, r.id ≠ id → r ∈ (deleteAsset s log id adminId adminUsername now).1) ∧
      (∀ r ∈ s, r.id = id → r ∉ (deleteAsset s log id adminId adminUsername now).1) := by
  simp only [deleteAsset_fst, List.mem_filter, decide_eq_true_eq]
  exact ⟨fun r h => h, fun r hr hne => ⟨hr, hne⟩, fun r hr heq h => h.2 heq⟩

/-- **C8 witness.** Deleting the uploaded record with id 2 (admin path)
removes it and keeps the unrelated uploading record with id 1. -/
theorem c8_deleteAsset_spec_witness :
    mkRecord 1 .uploading 0 none
      ∈ (deleteAsset [mkRecord 1 .uploading 0 none, mkRecord 2 .uploaded 0 (some "abc")]
          [] 2 (some 7) (some "admin") 42).1 :=
  (c8_deleteAsset_spec [mkRecord 1 .uploading 0 none, mkRecord 2 .uploaded 0 (some "abc")]
      [] 2 (some 7) (some "admin") 42).2.1
    (mkRecord 1 .uploading 0 none) (by decide) (by decide)

/-- **C10.** `resetFailedAssets()` maps the store pointwise: exactly the
records with status `'failed'` get `status = 'pending'` and
`retries = 0`; every other record, and every other field of the reset
records (serverId, payload, timestamps, metadata), is unchanged. -/
theorem c10_resetFailedAssets_spec (s : Store) :
    (resetFailedAssets s).length = s.length ∧
      (∀ i : Nat, (resetFailedAssets s)[i]?
        = s[i]?.map (fun r => if r.status = .failed
            then { r with status := AssetStatus.pending, retries := 0 } else r)) ∧
      (∀ r ∈ s, r.status ≠ .failed → r ∈ resetFailedAssets s) ∧
      ∀ r ∈ s, r.status = .failed →
        { r with status := AssetStatus.pending, retries := 0 } ∈ resetFailedAssets s := by
  refine ⟨by simp [resetFailedAssets],
    fun i => by simp [resetFailedAssets, List.getElem?_map], ?_, ?_⟩
  · intro r hr hne
    unfold resetFailedAssets
    refine List.mem_map.mpr ⟨r, hr, ?_⟩
    dsimp only
    rw [if_neg hne]
  · intro r hr heq
    unfold resetFailedAssets
    refine List.mem_map.mpr ⟨r, hr, ?_⟩
    dsimp only
    rw [if_pos heq]

/-- **C10 witness.** On a store with one failed and one uploaded record,
the failed one is reset and the uploaded one survives untouched. -/
theorem c10_resetFailedAssets_spec_witness :
    { mkRecord 1 .failed 3 none with status := AssetStatus.pending, retries := 0 }
        ∈ resetFailedAssets [mkRecord 1 .failed 3 none, mkRecord 2 .uploaded 0 (some "abc")] ∧
      mkRecord 2 .uploaded 0 (some "abc")
        ∈ resetFailedAssets [mkRecord 1 .failed 3 none, mkRecord 2 .uploaded 0 (some "abc")] :=
  ⟨(c10_resetFailedAssets_spec
      [mkRecord 1 .failed 3 none, mkRecord 2 .uploaded 0 (some "abc")]).2.2.2
      (mkRecord 1 .failed 3 none) (by decide) (by decide),
    (c10_resetFailedAssets_spec
      [mkRecord 1 .failed 3 none, mkRecord 2 .uploaded 0 (some "abc")]).2.2.1
      (mkRecord 2 .uploaded 0 (some "abc")) (by decide) (by decide)⟩

lemma find?_id_eq_some {s : Store} (hs : sortedById s) {r : LocalAssetRecord}
    (hr : r ∈ s) {id : Nat} (hid : r.id = id) :
    s.find? (fun x => decide (x.id = id)) = some r := by
  induction s with
  | nil => cases hr
  | cons a t ih =>
    rcases List.pairwise_cons.mp hs with ⟨ha, ht⟩
    by_cases hai : a.id = id
    · have hra : r = a :=
        eq_of_mem_of_id_eq hs hr (List.mem_cons_self a t) (hid.trans hai.symm)
      rw [List.find?_cons_of_pos _ (by simpa using hai), hra]
    · have hrna : r ≠ a := fun h => hai (h ▸ hid)
      have hrt : r ∈ t := (List.mem_cons.mp hr).resolve_left hrna
      rw [List.find?_cons_of_neg _ (by simpa using hai)]
      exact ih ht hrt

/-- **C9.** For a record present in the store (with the primary-key id
discipline) and any `maxRetries`: when its retries have reached the cap,
`incrementRetryCapped` returns the current count and leaves the store
entirely unchanged; otherwise it bumps exactly that record's retries by
one — changing no other field and no other record — and returns the new
count; in both cases the returned count never exceeds
`max retries maxRetries`. -/
theorem c9_incrementRetryCapped_spec (s : Store) (hs : sortedById s)
    (id maxRetries : Nat) (r : LocalAssetRecord) (hr : r ∈ s) (hid : r.id = id) :
    (maxRetries ≤ r.retries → incrementRetryCapped s id maxRetries = (s, r.retries)) ∧
      (r.retries < maxRetries →
        (incrementRetryCapped s id maxRetries).1
            = s.map (fun x => if x.id = id
                then { x with retries := x.retries + 1 } else x) ∧
          (incrementRetryCapped s id maxRetries).2 = r.retries + 1) ∧
      (incrementRetryCapped s id maxRetries).2 ≤ max r.retries maxRetries := by
  have hfind : s.find? (fun x => decide (x.id = id)) = some r := find?_id_eq_some hs hr hid
  unfold incrementRetryCapped
  rw [hfind]
  simp only [Option.map_some', Option.getD_some]
  by_cases hcap : maxRetries ≤ r.retries
  · rw [if_pos hcap]
    exact ⟨fun _ => rfl, fun hlt => absurd hcap (not_le.mpr hlt), le_max_left _ _⟩
  · rw [if_neg hcap]
    refine ⟨fun h => absurd h hcap, fun _ => ⟨?_, rfl⟩, ?_⟩
    · apply List.map_congr_left
      intro x hx
      by_cases hxid : x.id = id
      · have hxr : x = r := eq_of_mem_of_id_eq hs hx hr (hxid.trans hid.symm)
        rw [if_pos hxid, if_pos hxid, hxr]
      · rw [if_neg hxid, if_neg hxid]
    · exact le_max_of_le_right (Nat.succ_le_of_lt (not_le.mp hcap))

/-- **C9 witness.** Applied at a two-record store: the pending record
with id 1 and `retries = 1 < maxRetries = 3` is bumped to 2. -/
theorem c9_incrementRetryCapped_spec_witness :
    (mkRecord 1 .pending 1 none).retries < 3 ∧
      (incrementRetryCapped [mkRecord 1 .pending 1 none, mkRecord 2 .failed 0 none] 1 3).2
        = (mkRecord 1 .pending 1 none).retries + 1 :=
  ⟨by decide,
    ((c9_incrementRetryCapped_spec [mkRecord 1 .pending 1 none, mkRecord 2 .failed 0 none]
        (by decide) 1 3 (mkRecord 1 .pending 1 none) (by decide) (by decide)).2.1
      (by decide)).2⟩

lemma storeInvariant_map {s : Store} {f : LocalAssetRecord → LocalAssetRecord}
    (h : ∀ r ∈ s, serverIdInvariant (f r)) : storeInvariant (s.map f) := by
  intro r' hr'
  rcases List.mem_map.mp hr' with ⟨r, hr, rfl⟩
  exact h r hr

lemma inv_of_none_not_uploaded {r : LocalAssetRecord} (h1 : r.serverId = none)
    (h2 : r.status ≠ .uploaded) : serverIdInvariant r :=
  ⟨fun hne => absurd h1 hne, fun hst => absurd hst h2⟩

lemma not_uploaded_of_eligible {r : LocalAssetRecord} (h : isEligible r = true) :
    r.status ≠ .uploaded := by
  intro hst
  unfold isEligible at h
  rw [hst] at h
  exact Bool.noConfusion h

/-- **C2 (amended).** On a store with the primary-key id discipline
where `serverId ≠ null ⇔ status = 'uploaded'` holds of every record, the
equivalence is preserved by `insertAsset` provided the inserted status
is not `'uploaded'`; by `reservePendingAssets` and `markUploaded`
unconditionally; by `markFailed`, `setPending` and `resetAsset` provided
the targeted record's status is not `'uploaded'`; by
`resetFailedAssets` unconditionally; and by the schema migration
provided no uploaded record's serverId matches the migration's
`LIKE 'local_%' / 'server_%'` patterns. -/
theorem c2_serverId_invariant_preserved (s : Store) (hs : sortedById s)
    (hinv : storeInvariant s) :
    (∀ p : InsertParams, p.status ≠ AssetStatus.uploaded →
        storeInvariant (insertAsset s p).1) ∧
      (∀ limit, storeInvariant (reservePendingAssets s limit).1) ∧
      (∀ id sid, storeInvariant (markUploaded s id sid)) ∧
      (∀ id, (∀ r ∈ s, r.id = id → r.status ≠ AssetStatus.uploaded) →
        storeInvariant (markFailed s id)) ∧
      (∀ id, (∀ r ∈ s, r.id = id → r.status ≠ AssetStatus.uploaded) →
        storeInvariant (setPending s id)) ∧
      (∀ id, (∀ r ∈ s, r.id = id → r.status ≠ AssetStatus.uploaded) →
        storeInvariant (resetAsset s id)) ∧
      storeInvariant (resetFailedAssets s) ∧
      ((∀ r ∈ s, r.status = AssetStatus.uploaded → ∀ sid, r.serverId = some sid →
          isInvalidServerId sid = false) →
        storeInvariant (initializeSchema s)) := by
  refine ⟨?_, ?_, ?_, ?_, ?_, ?_, ?_, ?_⟩
  · intro p hp r hr
    rcases List.mem_append.mp hr with hl | hrr
    · exact hinv r hl
    · rcases List.mem_singleton.mp hrr with rfl
      exact inv_of_none_not_uploaded rfl hp
  · intro limit
    rw [reservePending_store hs limit]
    apply storeInvariant_map
    intro r hr
    dsimp only
    by_cases hmem : r.id ∈ (eligibleTake s limit).map (·.id)
    · rw [if_pos hmem]
      have hnu := not_uploaded_of_eligible (eligible_of_id_mem hs hr hmem)
      have h0 := serverId_none_of_not_uploaded (hinv r hr) hnu
      exact inv_of_none_not_uploaded h0 (by simp)
    · rw [if_neg hmem]
      exact hinv r hr
  · intro id sid
    unfold markUploaded
    apply storeInvariant_map
    intro r hr
    dsimp only
    by_cases hid : r.id = id
    · rw [if_pos hid]
      exact ⟨fun _ => rfl, fun _ => by simp⟩
    · rw [if_neg hid]
      exact hinv r hr
  · intro id htgt
    unfold markFailed
    apply storeInvariant_map
    intro r hr
    dsimp only
    by_cases hid : r.id = id
    · rw [if_pos hid]
      have h0 := serverId_none_of_not_uploaded (hinv r hr) (htgt r hr hid)
      exact inv_of_none_not_uploaded h0 (by simp)
    · rw [if_neg hid]
      exact hinv r hr
  · intro id htgt
    unfold setPending
    apply storeInvariant_map
    intro r hr
    dsimp only
    by_cases hid : r.id = id
    · rw [if_pos hid]
      have h0 := serverId_none_of_not_uploaded (hinv r hr) (htgt r hr hid)
      exact inv_of_none_not_uploaded h0 (by simp)
    · rw [if_neg hid]
      exact hinv r hr
  · intro id htgt
    unfold resetAsset
    apply storeInvariant_map
    intro r hr
    dsimp only
    by_cases hid : r.id = id
    · rw [if_pos hid]
      have h0 := serverId_none_of_not_uploaded (hinv r hr) (htgt r hr hid)
      exact inv_of_none_not_uploaded h0 (by simp)
    · rw [if_neg hid]
      exact hinv r hr
  · unfold resetFailedAssets
    apply storeInvariant_map
    intro r hr
    dsimp only
    by_cases hst : r.status = .failed
    · rw [if_pos hst]
      have h0 := serverId_none_of_not_uploaded (hinv r hr) (by rw [hst]; simp)
      exact inv_of_none_not_uploaded h0 (by simp)
    · rw [if_neg hst]
      exact hinv r hr
  · intro hmig
    unfold initializeSchema
    apply storeInvariant_map
    intro r hr
    rcases hsid : r.serverId with _ | sid
    · simp only [hsid]
      exact hinv r hr
    · simp only [hsid]
      by_cases hbad : isInvalidServerId sid = true
      · rw [if_pos hbad]
        have hnu : r.status ≠ .uploaded := fun hst => by
          rw [hmig r hr hst sid hsid] at hbad
          exact Bool.noConfusion hbad
        exact inv_of_none_not_uploaded rfl hnu
      · rw [if_neg hbad]
        exact hinv r hr

/-- **C2 witness.** The preservation theorem applied to a concrete
invariant-satisfying store, extracting the `resetFailedAssets`
component. -/
theorem c2_serverId_invariant_preserved_witness :
    storeInvariant [mkRecord 1 .pending 0 none, mkRecord 2 .uploaded 0 (some "abc")] ∧
      storeInvariant (resetFailedAssets
        [mkRecord 1 .pending 0 none, mkRecord 2 .uploaded 0 (some "abc")]) :=
  ⟨by decide,
    (c2_serverId_invariant_preserved
        [mkRecord 1 .pending 0 none, mkRecord 2 .uploaded 0 (some "abc")]
        (by decide) (by decide)).2.2.2.2.2.2.1⟩

lemma map_retries_pointwise {s : Store} {f : LocalAssetRecord → LocalAssetRecord}
    {g : LocalAssetRecord → Nat} (h : ∀ r ∈ s, (f r).retries = g r) :
    (s.map f).map (·.retries) = s.map g := by
  rw [List.map_map]
  exact List.map_congr_left fun r hr => h r hr

/-- **C7.** On a store with the primary-key id discipline, the retries
column is only ever changed by exactly +1 on the targeted record
(`incrementRetry` always, `incrementRetryCapped` only below the cap) or
by a reset to 0 (`resetAsset` on the targeted record,
`resetFailedAssets` on failed records); `reservePendingAssets`,
`markUploaded`, `markFailed`, `setPending` and the schema migration
leave every record's retries unchanged, `deleteAsset` only removes
records, and `insertAsset` leaves every existing record's retries
unchanged (it only sets the new record's initial value). -/
theorem c7_retries_discipline (s : Store) (hs : sortedById s) :
    (∀ limit, (reservePendingAssets s limit).1.map (·.retries) = s.map (·.retries)) ∧
      (∀ id sid, (markUploaded s id sid).map (·.retries) = s.map (·.retries)) ∧
      (∀ id, (markFailed s id).map (·.retries) = s.map (·.retries)) ∧
      (∀ id, (setPending s id).map (·.retries) = s.map (·.retries)) ∧
      (initializeSchema s).map (·.retries) = s.map (·.retries) ∧
      (∀ id, (incrementRetry s id).1.map (·.retries)
        = s.map (fun r => if r.id = id then r.retries + 1 else r.retries)) ∧
      (∀ id maxRetries, (incrementRetryCapped s id maxRetries).1.map (·.retries)
        = s.map (fun r => if r.id = id ∧ r.retries < maxRetries
            then r.retries + 1 else r.retries)) ∧
      (∀ id, (resetAsset s id).map (·.retries)
        = s.map (fun r => if r.id = id then 0 else r.retries)) ∧
      (resetFailedAssets s).map (·.retries)
        = s.map (fun r => if r.status = .failed then 0 else r.retries) ∧
      (∀ log id adminId adminUsername now,
        ∀ r ∈ (deleteAsset s log id adminId adminUsername now).1, r ∈ s) ∧
      (∀ p : InsertParams, (insertAsset s p).1.map (·.retries)
        = s.map (·.retries) ++ [p.retries.getD 0]) := by
  refine ⟨?_, ?_, ?_, ?_, ?_, ?_, ?_, ?_, ?_, ?_, ?_⟩
  · intro limit
    rw [reservePending_store hs limit]
    exact map_retries_pointwise fun r _ => by split <;> rfl
  · intro id sid
    unfold markUploaded
    exact map_retries_pointwise fun r _ => by split <;> rfl
  · intro id
    unfold markFailed
    exact map_retries_pointwise fun r _ => by split <;> rfl
  · intro id
    unfold setPending
    exact map_retries_pointwise fun r _ => by split <;> rfl
  · unfold initializeSchema
    apply map_retries_pointwise
    intro r _
    rcases r.serverId with _ | sid
    · rfl
    · dsimp only
      split <;> rfl
  · intro id
    unfold incrementRetry
    exact map_retries_pointwise fun r _ => by split <;> rfl
  · intro id maxRetries
    rcases hfind : s.find? (fun x => decide (x.id = id)) with _ | r0
    · have hnone : ∀ x ∈ s, x.id ≠ id := by
        intro x hx
        have := List.find?_eq_none.mp hfind x hx
        simpa using this
      unfold incrementRetryCapped
      rw [hfind]
      simp only [Option.map_none', Option.getD_none]
      by_cases hm : maxRetries ≤ 0
      · rw [if_pos hm]
        exact List.map_congr_left fun r hr => by
          rw [if_neg (fun hc => hnone r hr hc.1)]
      · rw [if_neg hm]
        apply map_retries_pointwise
        intro r hr
        dsimp only
        rw [if_neg (hnone r hr), if_neg (fun hc => hnone r hr hc.1)]
    · have hr0 : r0 ∈ s := List.mem_of_find?_eq_some hfind
      have hid0 : r0.id = id := by simpa using List.find?_some hfind
      unfold incrementRetryCapped
      rw [hfind]
      simp only [Option.map_some', Option.getD_some]
      by_cases hm : maxRetries ≤ r0.retries
      · rw [if_pos hm]
        refine List.map_congr_left fun r hr => ?_
        by_cases hid : r.id = id
        · have hrr0 : r = r0 := eq_of_mem_of_id_eq hs hr hr0 (hid.trans hid0.symm)
          rw [if_neg]
          rintro ⟨_, hlt⟩
          rw [hrr0] at hlt
          exact absurd hm (not_le.mpr hlt)
        · rw [if_neg (fun hc => hid hc.1)]
      · rw [if_neg hm]
        apply map_retries_pointwise
        intro r hr
        dsimp only
        by_cases hid : r.id = id
        · have hrr0 : r = r0 := eq_of_mem_of_id_eq hs hr hr0 (hid.trans hid0.symm)
          rw [if_pos hid, if_pos ⟨hid, hrr0 ▸ not_le.mp hm⟩, hrr0]
        · rw [if_neg hid, if_neg (fun hc => hid hc.1)]
  · intro id
    unfold resetAsset
    exact map_retries_pointwise fun r _ => by split <;> rfl
  · unfold resetFailedAssets
    exact map_retries_pointwise fun r _ => by split <;> rfl
  · intro log id adminId adminUsername now r hr
    rw [deleteAsset_fst] at hr
    exact List.mem_of_mem_filter hr
  · intro p
    simp [insertAsset]

/-- **C7 witness.** The discipline applied at a concrete store:
`markUploaded` leaves retries unchanged. -/
theorem c7_retries_discipline_witness :
    (markUploaded [mkRecord 1 .uploading 2 none] 1 "abc").map (·.retries)
      = [mkRecord 1 .uploading 2 none].map (·.retries) :=
  (c7_retries_discipline [mkRecord 1 .uploading 2 none] (by decide)).2.1 1 "abc"
